import Mathlib

/-!
Verification development for the bootc podman-desktop extension.

This file gives a shallow embedding, in Lean, of the environment
precondition checker (`machine-utils.ts`, present in the repository
sources) and of the build request translator
(`build-disk-image.ts`; that file itself is not part of the source
snapshot, only its test suite `build-disk-image.spec.ts` is, so the
translator is modelled from the specification and pinned by the
repository's tests), together with theorems settling the frozen claims
about them.

Conventions of the embedding:
* TypeScript `string | undefined` fields become `Option String`; the
  TypeScript truthiness test `if (x)` on such a field becomes `truthy`,
  which is `false` exactly on `none` and on the empty string.
* Fallible effects (subprocess execution, file reads, JSON parsing)
  are passed in as `Except String` values: `.error e` models a thrown
  exception inside the corresponding `try` block.
* File contents are passed in as an oracle `String → String`.
-/

/-! ### Embedding of `machine-utils.ts` -/

/-- Fixed message returned by `checkPrereqs` when the machine version
check fails (verbatim from `machine-utils.ts`). -/
def versionRequiredMessage : String :=
  "Podman v5.0 or higher is required to build disk images."

/-- Fixed message returned by `checkPrereqs` when the machine is not
rootful (verbatim from `machine-utils.ts`). -/
def rootfulRequiredMessage : String :=
  "The podman machine is not set as rootful. Please recreate the podman machine with rootful privileges set and try again."

/-- The two `Rootful` locations a machine configuration document can
carry: the nested `HostUser.Rootful` field (podman machine 5.x format)
and the top-level `Rootful` field (4.9 format). `none` models an
absent field. -/
structure MachineConfigDoc where
  hostUserRootful : Option Bool
  rootful : Option Bool

/-- TypeScript truthiness of an optional boolean JSON field: absent
fields and `false` are falsy. -/
def truthyOpt (o : Option Bool) : Bool := o.getD false

/-- The rootful cascade from `isPodmanMachineRootful`
(`machine-utils.ts` lines 96-110): `if (machineConfig?.HostUser?.Rootful)
... else if (machineConfig?.Rootful) ... else false`. -/
def rootfulOfConfig (c : MachineConfigDoc) : Bool :=
  if truthyOpt c.hostUserRootful then true
  else if truthyOpt c.rootful then true
  else false

/-- `isPodmanMachineRootful` from `machine-utils.ts`: the whole body is
wrapped in `try ... catch { return false }`; `cfgEnv` models the result
of `getMachineInfo` followed by `readMachineConfig` (either of which can
throw). -/
def isPodmanMachineRootful (cfgEnv : Except String MachineConfigDoc) : Bool :=
  match cfgEnv with
  | .error _ => false
  | .ok c => rootfulOfConfig c

/-- The rootful determination as worded by the claim: prefer the nested
`HostUser.Rootful` field whenever it is present, falling back to the
top-level `Rootful` field only when the nested field is absent, and to
`false` when neither is present. Stated here only to be compared with
`rootfulOfConfig`, the embedding of the source. -/
def rootfulPerClaim (c : MachineConfigDoc) : Bool :=
  match c.hostUserRootful with
  | some b => b
  | none => c.rootful.getD false

/-- Numeric digit value of a decimal digit character. -/
def digitVal (c : Char) : Nat := c.toNat - 48

/-- Consume leading decimal digits of a character list, accumulating
their value; returns the value and the unconsumed remainder. -/
def takeDigits : List Char → Nat → Nat × List Char
  | [], acc => (acc, [])
  | c :: cs, acc =>
    if c.isDigit then takeDigits cs (acc * 10 + digitVal c) else (acc, c :: cs)

/-- Drop characters until the first decimal digit; `none` when the list
has no digit at all. -/
def dropToDigit : List Char → Option (List Char)
  | [] => none
  | c :: cs => if c.isDigit then some (c :: cs) else dropToDigit cs

/-- Model of `coerce` from the `semver` package as used by
`isPodmanV5Machine`: extract the first `major(.minor)?(.patch)?` digit
group appearing anywhere in the string (missing components default to
0, anything after them — such as a prerelease tag `-dev` — is
discarded), or `none` when the string contains no digits at all. -/
def parseCoerce (s : String) : Option (Nat × Nat × Nat) :=
  match dropToDigit s.data with
  | none => none
  | some l =>
    let m := takeDigits l 0
    match m.2 with
    | '.' :: c :: r2 =>
      if c.isDigit then
        let mi := takeDigits (c :: r2) 0
        match mi.2 with
        | '.' :: d :: r3 =>
          if d.isDigit then some (m.1, mi.1, (takeDigits (d :: r3) 0).1)
          else some (m.1, mi.1, 0)
        | _ => some (m.1, mi.1, 0)
      else some (m.1, 0, 0)
    | _ => some (m.1, 0, 0)

/-- Lexicographic comparison of `major.minor.patch` triples, the order
used by `satisfies(v, '>=5.0.0', ...)` on coerced (prerelease-free)
versions. -/
def semverAtLeast (v w : Nat × Nat × Nat) : Bool :=
  if v.1 = w.1 then
    (if v.2.1 = w.2.1 then decide (w.2.2 ≤ v.2.2) else decide (w.2.1 < v.2.1))
  else decide (w.1 < v.1)

/-- `isPodmanV5Machine` from `machine-utils.ts`: read
`machineInfo.Version.Version` (`verEnv`, whose `.error` case models a
thrown exception caught by the surrounding `try`), coerce it, fail
closed on unparseable versions, and otherwise require at least 5.0.0. -/
def isPodmanV5Machine (verEnv : Except String String) : Bool :=
  match verEnv with
  | .error _ => false
  | .ok ver =>
    match parseCoerce ver with
    | none => false
    | some v => semverAtLeast v (5, 0, 0)

/-- `checkPrereqs` from `machine-utils.ts`: on Linux both machine checks
are skipped; otherwise the version check runs first and short-circuits,
then the rootful check. -/
def checkPrereqs (isLinux : Bool) (verEnv : Except String String)
    (cfgEnv : Except String MachineConfigDoc) : Option String :=
  if isLinux then none
  else if !isPodmanV5Machine verEnv then some versionRequiredMessage
  else if !isPodmanMachineRootful cfgEnv then some rootfulRequiredMessage
  else none

/-- C2 counterexample: a machine configuration whose nested
`HostUser.Rootful` field is present but `false` while the top-level
`Rootful` field is `true`. The code's truthiness cascade falls through
to the top-level field and resolves `true`, whereas the claim's
"prefer the nested field whenever present" algorithm resolves `false`. -/
theorem isPodmanMachineRootful_counterexample :
    isPodmanMachineRootful (.ok ⟨some false, some true⟩) = true ∧
    rootfulPerClaim ⟨some false, some true⟩ = false := by
  exact ⟨rfl, rfl⟩

/-- C2 (amended): `isPodmanMachineRootful` resolves `true` when the
nested `HostUser.Rootful` field is truthy; when the nested field is
absent or `false` it falls back to the top-level `Rootful` field; it
resolves `false` when neither field is truthy; and it never throws: any
exception (subprocess or file-read failure, modelled by `.error`)
resolves to `false`. -/
theorem isPodmanMachineRootful_spec :
    (∀ e : String, isPodmanMachineRootful (.error e) = false) ∧
    (∀ c : MachineConfigDoc, c.hostUserRootful = some true →
      isPodmanMachineRootful (.ok c) = true) ∧
    (∀ c : MachineConfigDoc, truthyOpt c.hostUserRootful = false →
      isPodmanMachineRootful (.ok c) = truthyOpt c.rootful) ∧
    (∀ c : MachineConfigDoc, truthyOpt c.hostUserRootful = false →
      truthyOpt c.rootful = false → isPodmanMachineRootful (.ok c) = false) := by
  refine ⟨fun _ => rfl, fun c h => ?_, fun c h => ?_, fun c h h2 => ?_⟩
  · simp [isPodmanMachineRootful, rootfulOfConfig, truthyOpt, h]
  · simp only [isPodmanMachineRootful, rootfulOfConfig, h, if_false, Bool.false_eq_true]
    cases hr : truthyOpt c.rootful <;> simp [hr]
  · simp [isPodmanMachineRootful, rootfulOfConfig, h, h2]

/-- C2 witness: instantiates the amended theorem at a configuration with
`HostUser.Rootful = true`. -/
theorem isPodmanMachineRootful_spec_witness :
    isPodmanMachineRootful (.ok ⟨some true, none⟩) = true :=
  isPodmanMachineRootful_spec.2.1 ⟨some true, none⟩ rfl

/-- C4: `isPodmanV5Machine` returns `true` iff the reported version
string coerces to a semantic-version triple at least `5.0.0`; it fails
closed to `false` when the string cannot be coerced; prerelease tags do
not block the comparison, so `"5.0.0-dev"` passes while `"4.9.4"`
fails. -/
theorem isPodmanV5Machine_spec :
    (∀ s : String, isPodmanV5Machine (.ok s) = true ↔
      ∃ v, parseCoerce s = some v ∧ semverAtLeast v (5, 0, 0) = true) ∧
    (∀ s : String, parseCoerce s = none → isPodmanV5Machine (.ok s) = false) ∧
    isPodmanV5Machine (.ok "5.0.0-dev") = true ∧
    isPodmanV5Machine (.ok "4.9.4") = false := by
  refine ⟨fun s => ?_, fun s h => ?_, by decide, by decide⟩
  · cases h : parseCoerce s with
    | none => simp [isPodmanV5Machine, h]
    | some v => simp [isPodmanV5Machine, h]
  · simp [isPodmanV5Machine, h]

/-- C4 witness: instantiates the fail-closed conjunct at a string with
no digits at all, which `coerce` cannot parse. -/
theorem isPodmanV5Machine_spec_witness :
    isPodmanV5Machine (.ok "wrong") = false :=
  isPodmanV5Machine_spec.2.1 "wrong" (by decide)

/-- C3: `checkPrereqs` resolves `none` on Linux regardless of machine
state; on non-Linux it resolves the fixed version message whenever the
version check fails, independently of the rootful state (the rootful
check is not consulted); the fixed rootful message when the version
check passes but the machine is not rootful; and `none` when both
checks pass. -/
theorem checkPrereqs_spec :
    (∀ verEnv cfgEnv, checkPrereqs true verEnv cfgEnv = none) ∧
    (∀ verEnv cfgEnv, isPodmanV5Machine verEnv = false →
      checkPrereqs false verEnv cfgEnv = some versionRequiredMessage) ∧
    (∀ verEnv cfgEnv, isPodmanV5Machine verEnv = true →
      isPodmanMachineRootful cfgEnv = false →
      checkPrereqs false verEnv cfgEnv = some rootfulRequiredMessage) ∧
    (∀ verEnv cfgEnv, isPodmanV5Machine verEnv = true →
      isPodmanMachineRootful cfgEnv = true →
      checkPrereqs false verEnv cfgEnv = none) := by
  refine ⟨fun _ _ => rfl, fun v c h => ?_, fun v c h h2 => ?_, fun v c h h2 => ?_⟩
  · simp [checkPrereqs, h]
  · simp [checkPrereqs, h, h2]
  · simp [checkPrereqs, h, h2]

/-- C3 witness: instantiates the version-failure conjunct at the
concrete version `"4.9.0"` (with an arbitrary rootful configuration),
matching the repository's own test. -/
theorem checkPrereqs_spec_witness :
    checkPrereqs false (.ok "4.9.0") (.ok ⟨some true, none⟩)
      = some versionRequiredMessage :=
  checkPrereqs_spec.2.1 (.ok "4.9.0") (.ok ⟨some true, none⟩) (by decide)

/-! ### Model of the build request translator (`build-disk-image.ts`)

The translator implementation is not part of the source snapshot; only
its test suite `build-disk-image.spec.ts` is. The definitions below are
modelled from the specification (§4.1) and pinned by those tests. One
divergence between the two is resolved in favour of the tests: the
specification claims `--target-arch` is appended only for certain
format sets, while the tests (lines 90-156 of the spec file) require it
to be appended whenever the arch field is set, even for a single `raw`
format. -/

/-- Default builder image preset (`constants.ts`). -/
def bootcImageBuilderCentos : String :=
  "quay.io/centos-bootc/bootc-image-builder:latest"

/-- Fixed host path the generated structured build configuration is
written to before being bound into the container. -/
def tmpBuildConfigPath : String := "/tmp/bootc-build-config.json"

/-- One user account entry of a structured build configuration. -/
structure UserConfig where
  name : String
  password : String
  key : String
  groups : List String

/-- One custom mount point entry of a structured build configuration. -/
structure FilesystemConfig where
  mountpoint : String
  minsize : String

/-- Kernel argument appends of a structured build configuration. -/
structure KernelConfig where
  append : String

/-- Installer module enable/disable lists (anaconda-iso only). -/
structure InstallerModulesConfig where
  enable : List String
  disable : List String

/-- Structured build configuration (`BuildConfig` in
`/@shared/src/models/bootc`): user accounts, custom mount points,
kernel appends, installer module lists, and an optional kickstart
script path whose file contents get embedded. -/
structure BuildConfig where
  user : List UserConfig
  filesystem : List FilesystemConfig
  kernel : Option KernelConfig
  anacondaIsoInstallerModules : Option InstallerModulesConfig
  anacondaIsoInstallerKickstartFilePath : Option String

/-- Build specification (`BootcBuildInfo`): the fields consumed by
`createBuilderImageOptions`. Optional string fields are `Option
String`; the TypeScript truthiness tests on them are `truthy`. -/
structure BootcBuildInfo where
  image : String
  tag : String
  type : List String
  arch : Option String
  folder : String
  filesystem : Option String
  chown : Option String
  awsBucket : Option String
  awsRegion : Option String
  awsAmiName : Option String
  buildConfigFilePath : Option String
  buildConfig : Option BuildConfig

/-- TypeScript truthiness of a `string | undefined` field: `undefined`
and the empty string are falsy. -/
def truthy (o : Option String) : Bool := !(o.getD "").isEmpty

/-- The fixed allow-list of root filesystem types. -/
def allowedFilesystems : List String := ["xfs", "ext4", "btrfs"]

/-- Whether the `--rootfs` flag is emitted: the filesystem field is a
non-empty member of the allow-list. -/
def rootfsOn (b : BootcBuildInfo) : Bool :=
  truthy b.filesystem && allowedFilesystems.contains (b.filesystem.getD "")

/-- Whether all three AWS upload fields are present (truthy); the AWS
flags and the credentials bind are emitted only in that case. -/
def allAws (b : BootcBuildInfo) : Bool :=
  truthy b.awsBucket && truthy b.awsRegion && truthy b.awsAmiName

/-- The fixed head of the builder command:
`<image>:<tag> --output /output/ --local --progress verbose`. -/
def baseCmd (b : BootcBuildInfo) : List String :=
  [b.image ++ ":" ++ b.tag, "--output", "/output/", "--local", "--progress", "verbose"]

/-- One `--type <format>` pair per requested output format, in input
order, duplicates preserved. -/
def typeArgs (ts : List String) : List String :=
  ts.flatMap fun t => ["--type", t]

/-- `--target-arch <arch>`, appended whenever the arch field is set. -/
def archArgs (b : BootcBuildInfo) : List String :=
  if truthy b.arch then ["--target-arch", b.arch.getD ""] else []

/-- `--rootfs <fs>`, appended when the filesystem field is a non-empty
member of the allow-list. -/
def rootfsArgs (b : BootcBuildInfo) : List String :=
  if rootfsOn b then ["--rootfs", b.filesystem.getD ""] else []

/-- The three AWS upload flags, appended all-or-nothing. -/
def awsArgs (b : BootcBuildInfo) : List String :=
  if allAws b then
    ["--aws-bucket", b.awsBucket.getD "", "--aws-region", b.awsRegion.getD "",
      "--aws-ami-name", b.awsAmiName.getD ""]
  else []

/-- `--chown <spec>`, appended when the chown field is set. -/
def chownArgs (b : BootcBuildInfo) : List String :=
  if truthy b.chown then ["--chown", b.chown.getD ""] else []

/-- The builder command line assembled by `createBuilderImageOptions`:
base command, one `--type` pair per requested format in input order,
then the conditional `--target-arch`, `--rootfs`, AWS and `--chown`
flags. -/
def buildCmd (b : BootcBuildInfo) : List String :=
  baseCmd b ++ typeArgs b.type ++ archArgs b ++ rootfsArgs b ++ awsArgs b ++ chownArgs b

/-- Suffix test on strings, via their character lists (the embedding of
`String.prototype.endsWith`). -/
def strEndsWith (s suffix : String) : Bool := suffix.data.isSuffixOf s.data

/-- The optional third bind for a build configuration file: an inline
structured configuration is materialized to a temporary JSON file and
takes precedence; otherwise an externally authored file is bound with a
target extension matching its own. -/
def configBind (b : BootcBuildInfo) : List String :=
  match b.buildConfig with
  | some _ => [tmpBuildConfigPath ++ ":/config.json:ro"]
  | none =>
    match b.buildConfigFilePath with
    | some p =>
      [p ++ (if strEndsWith p ".toml" then ":/config.toml:ro" else ":/config.json:ro")]
    | none => []

/-- The ordered volume bind list: output folder first, container
storage second, then the optional configuration bind and the optional
AWS credentials bind. `homedir` models `os.homedir()`. -/
def buildBinds (homedir : String) (b : BootcBuildInfo) : List String :=
  [b.folder ++ ":/output/", "/var/lib/containers/storage:/var/lib/containers/storage"]
    ++ configBind b
    ++ (if allAws b then [homedir ++ "/.aws:/root/.aws:ro"] else [])

/-- Container creation options produced by `createBuilderImageOptions`
(the fields the claims are about). -/
structure ContainerCreateOptions where
  name : String
  image : String
  binds : List String
  cmd : List String
  labels : List (String × String)

/-- Modelled from the spec: `createBuilderImageOptions(name, build,
builder?)` from `build-disk-image.ts` (file absent from the snapshot;
behavior per spec §4.1 and the tests in `build-disk-image.spec.ts`).
Resolves the builder image (explicit override over the default
preset), assembles the ordered binds and the builder command line, and
labels the container `bootc.image.builder=true`. -/
def createBuilderImageOptions (homedir name : String) (b : BootcBuildInfo)
    (builder : Option String) : ContainerCreateOptions :=
  { name := name
    image := builder.getD bootcImageBuilderCentos
    binds := buildBinds homedir b
    cmd := buildCmd b
    labels := [("bootc.image.builder", "true")] }

/-- A command-line token that looks like a flag: it starts with `--`. -/
def flagLike (s : String) : Bool :=
  match s.data with
  | '-' :: '-' :: _ => true
  | _ => false

/-- A build specification whose free-form string fields do not
themselves look like builder flags; every specification exercised by
the repository's tests satisfies this. -/
def cleanBuild (b : BootcBuildInfo) : Bool :=
  !flagLike (b.image ++ ":" ++ b.tag) && b.type.all (fun t => !flagLike t) &&
    !flagLike (b.arch.getD "") && !flagLike (b.chown.getD "") &&
    !flagLike (b.awsBucket.getD "") && !flagLike (b.awsRegion.getD "") &&
    !flagLike (b.awsAmiName.getD "")

/-- The value immediately following each occurrence of `flag`, in
order of occurrence. -/
def flagValuesAfter (flag : String) : List String → List String
  | [] => []
  | a :: rest =>
    if a = flag then
      match rest with
      | [] => []
      | b :: _ => b :: flagValuesAfter flag rest
    else flagValuesAfter flag rest

/-! ### Command-line lemmas -/

theorem ne_of_not_flagLike {x f : String} (hx : flagLike x = false)
    (hf : flagLike f = true) : f ≠ x := by
  intro h; rw [h, hx] at hf; cases hf

theorem allowed_not_flagLike {v : String}
    (h : allowedFilesystems.contains v = true) : flagLike v = false := by
  have hv : v ∈ allowedFilesystems := by simpa using h
  fin_cases hv <;> decide

theorem mem_allowed_of_rootfsOn {b : BootcBuildInfo} (h : rootfsOn b = true) :
    allowedFilesystems.contains (b.filesystem.getD "") = true := by
  simp only [rootfsOn, Bool.and_eq_true] at h
  exact h.2

theorem cleanBuild_facts {b : BootcBuildInfo} (hc : cleanBuild b = true) {f : String}
    (hf : flagLike f = true) :
    f ≠ b.image ++ ":" ++ b.tag ∧ (∀ t ∈ b.type, f ≠ t) ∧ f ≠ b.arch.getD "" ∧
      f ≠ b.chown.getD "" ∧ f ≠ b.awsBucket.getD "" ∧ f ≠ b.awsRegion.getD "" ∧
      f ≠ b.awsAmiName.getD "" := by
  simp only [cleanBuild, Bool.and_eq_true, List.all_eq_true, Bool.not_eq_true'] at hc
  obtain ⟨⟨⟨⟨⟨⟨h1, h2⟩, h3⟩, h4⟩, h5⟩, h6⟩, h7⟩ := hc
  exact ⟨ne_of_not_flagLike h1 hf, fun t ht => ne_of_not_flagLike (h2 t ht) hf,
    ne_of_not_flagLike h3 hf, ne_of_not_flagLike h4 hf, ne_of_not_flagLike h5 hf,
    ne_of_not_flagLike h6 hf, ne_of_not_flagLike h7 hf⟩

theorem not_mem_baseCmd {b : BootcBuildInfo} {f : String}
    (h0 : f ≠ b.image ++ ":" ++ b.tag) (h1 : f ≠ "--output") (h2 : f ≠ "/output/")
    (h3 : f ≠ "--local") (h4 : f ≠ "--progress") (h5 : f ≠ "verbose") :
    f ∉ baseCmd b := by
  simp [baseCmd, h0, h1, h2, h3, h4, h5]

theorem not_mem_typeArgs {ts : List String} {f : String}
    (h : f ≠ "--type") (ht : ∀ t ∈ ts, f ≠ t) : f ∉ typeArgs ts := by
  intro hm
  obtain ⟨t, htm, hft⟩ := List.mem_flatMap.1 hm
  rcases List.mem_cons.1 hft with h1 | hft2
  · exact h h1
  · rcases List.mem_cons.1 hft2 with h2 | hft3
    · exact ht t htm h2
    · exact List.not_mem_nil f hft3

theorem not_mem_archArgs {b : BootcBuildInfo} {f : String}
    (h : f ≠ "--target-arch") (hv : f ≠ b.arch.getD "") : f ∉ archArgs b := by
  unfold archArgs
  split <;> simp [h, hv]

theorem truthy_arch_of_mem_archArgs {b : BootcBuildInfo} {f : String}
    (h : f ∈ archArgs b) : truthy b.arch = true := by
  cases ha : truthy b.arch
  · rw [archArgs, ha] at h
    simp at h
  · rfl

theorem not_mem_rootfsArgs {b : BootcBuildInfo} {f : String}
    (h : f ≠ "--rootfs") (hf : flagLike f = true) : f ∉ rootfsArgs b := by
  intro hm
  cases hr : rootfsOn b
  · rw [rootfsArgs, hr] at hm
    simp at hm
  · rw [rootfsArgs, hr] at hm
    rcases List.mem_cons.1 hm with h1 | hm2
    · exact h h1
    · rcases List.mem_cons.1 hm2 with h2 | hm3
      · exact ne_of_not_flagLike (allowed_not_flagLike (mem_allowed_of_rootfsOn hr)) hf h2
      · exact List.not_mem_nil f hm3

theorem rootfsOn_of_mem_rootfsArgs {b : BootcBuildInfo} {f : String}
    (h : f ∈ rootfsArgs b) : rootfsOn b = true := by
  cases hr : rootfsOn b
  · rw [rootfsArgs, hr] at h
    simp at h
  · rfl

theorem not_mem_awsArgs {b : BootcBuildInfo} {f : String}
    (h1 : f ≠ "--aws-bucket") (h2 : f ≠ "--aws-region") (h3 : f ≠ "--aws-ami-name")
    (v1 : f ≠ b.awsBucket.getD "") (v2 : f ≠ b.awsRegion.getD "")
    (v3 : f ≠ b.awsAmiName.getD "") : f ∉ awsArgs b := by
  unfold awsArgs
  split <;> simp [h1, h2, h3, v1, v2, v3]

theorem allAws_of_mem_awsArgs {b : BootcBuildInfo} {f : String}
    (h : f ∈ awsArgs b) : allAws b = true := by
  cases ha : allAws b
  · rw [awsArgs, ha] at h
    simp at h
  · rfl

theorem not_mem_chownArgs {b : BootcBuildInfo} {f : String}
    (h : f ≠ "--chown") (hv : f ≠ b.chown.getD "") : f ∉ chownArgs b := by
  unfold chownArgs
  split <;> simp [h, hv]

theorem mem_buildCmd_parts {b : BootcBuildInfo} {f : String} :
    f ∈ buildCmd b ↔
      f ∈ baseCmd b ∨ f ∈ typeArgs b.type ∨ f ∈ archArgs b ∨ f ∈ rootfsArgs b ∨
        f ∈ awsArgs b ∨ f ∈ chownArgs b := by
  simp [buildCmd, List.mem_append, or_assoc]

/-- The format-set condition claimed to gate `--target-arch`: the
format set includes `anaconda-iso`, or more than one format applies.
Stated only to be compared with the behavior of `buildCmd`. -/
def targetArchFormatCondition (b : BootcBuildInfo) : Bool :=
  b.type.contains "anaconda-iso" || decide (1 < b.type.length)

/-- The build specification of the repository's first translator test:
a single `raw` format with the arch field set. -/
def singleRawArchBuild : BootcBuildInfo :=
  { image := "test-image", tag := "not-latest", type := ["raw"], arch := some "amd",
    folder := "/output-folder", filesystem := none, chown := none, awsBucket := none,
    awsRegion := none, awsAmiName := none, buildConfigFilePath := none,
    buildConfig := none }

/-- C1 counterexample: the repository's first translator test — a
single `raw` format with arch set — produces `--target-arch` in the
command even though the claimed format-set condition (anaconda-iso
present, or more than one format) is false there. -/
theorem target_arch_counterexample :
    "--target-arch" ∈ buildCmd singleRawArchBuild ∧
      targetArchFormatCondition singleRawArchBuild = false := by
  constructor
  · decide
  · decide

/-- C1 (amended): for every clean build specification the generated
builder command contains `--target-arch` if and only if the arch field
is set (truthy); the output formats play no role, and when arch is
unset the flag never appears. -/
theorem buildCmd_target_arch (b : BootcBuildInfo) (hc : cleanBuild b = true) :
    ("--target-arch" ∈ buildCmd b) ↔ truthy b.arch = true := by
  obtain ⟨n1, nt, n3, n4, n5, n6, n7⟩ := cleanBuild_facts hc (f := "--target-arch") (by decide)
  constructor
  · intro hm
    rcases mem_buildCmd_parts.1 hm with h | h | h | h | h | h
    · exact absurd h (not_mem_baseCmd n1 (by decide) (by decide) (by decide) (by decide) (by decide))
    · exact absurd h (not_mem_typeArgs (by decide) nt)
    · exact truthy_arch_of_mem_archArgs h
    · exact absurd h (not_mem_rootfsArgs (by decide) (by decide))
    · exact absurd h (not_mem_awsArgs (by decide) (by decide) (by decide) n5 n6 n7)
    · exact absurd h (not_mem_chownArgs (by decide) n4)
  · intro ha
    exact mem_buildCmd_parts.2 (Or.inr (Or.inr (Or.inl (by simp [archArgs, ha]))))

/-- C1 witness: the amended theorem instantiated at the single-format
specification with arch set. -/
theorem buildCmd_target_arch_witness :
    ("--target-arch" ∈ buildCmd singleRawArchBuild) ↔ truthy singleRawArchBuild.arch = true :=
  buildCmd_target_arch singleRawArchBuild (by decide)

/-- C7: for every clean build specification the generated builder
command contains `--rootfs` if and only if the filesystem field is one
of exactly `xfs`, `ext4`, `btrfs`; any other value, including the empty
string and arbitrary strings, yields no `--rootfs` flag. -/
theorem buildCmd_rootfs (b : BootcBuildInfo) (hc : cleanBuild b = true) :
    ("--rootfs" ∈ buildCmd b) ↔ (b.filesystem.getD "") ∈ allowedFilesystems := by
  obtain ⟨n1, nt, n3, n4, n5, n6, n7⟩ := cleanBuild_facts hc (f := "--rootfs") (by decide)
  have hiff : rootfsOn b = true ↔ (b.filesystem.getD "") ∈ allowedFilesystems := by
    constructor
    · intro h
      simpa using mem_allowed_of_rootfsOn h
    · intro h
      have hv : (b.filesystem.getD "") = "xfs" ∨ (b.filesystem.getD "") = "ext4" ∨
          (b.filesystem.getD "") = "btrfs" := by simpa [allowedFilesystems] using h
      simp only [rootfsOn, truthy, Bool.and_eq_true]
      rcases hv with hv | hv | hv <;> rw [hv] <;> exact ⟨by decide, by simp [allowedFilesystems]⟩
  rw [← hiff]
  constructor
  · intro hm
    rcases mem_buildCmd_parts.1 hm with h | h | h | h | h | h
    · exact absurd h (not_mem_baseCmd n1 (by decide) (by decide) (by decide) (by decide) (by decide))
    · exact absurd h (not_mem_typeArgs (by decide) nt)
    · exact absurd h (not_mem_archArgs (by decide) n3)
    · exact rootfsOn_of_mem_rootfsArgs h
    · exact absurd h (not_mem_awsArgs (by decide) (by decide) (by decide) n5 n6 n7)
    · exact absurd h (not_mem_chownArgs (by decide) n4)
  · intro hr
    exact mem_buildCmd_parts.2 (Or.inr (Or.inr (Or.inr (Or.inl (by simp [rootfsArgs, hr])))))

/-- C7 witness at a clean specification with filesystem `xfs`. -/
theorem buildCmd_rootfs_witness :
    ("--rootfs" ∈ buildCmd { singleRawArchBuild with filesystem := some "xfs" }) ↔
      (({ singleRawArchBuild with filesystem := some "xfs" } : BootcBuildInfo).filesystem.getD "")
        ∈ allowedFilesystems :=
  buildCmd_rootfs { singleRawArchBuild with filesystem := some "xfs" } (by decide)

theorem fva_cons_ne {flag a : String} {l : List String} (h : a ≠ flag) :
    flagValuesAfter flag (a :: l) = flagValuesAfter flag l := by
  cases l <;> simp [flagValuesAfter, h]

theorem fva_cons_self {flag b2 : String} {l : List String} :
    flagValuesAfter flag (flag :: b2 :: l) = b2 :: flagValuesAfter flag (b2 :: l) := by
  simp [flagValuesAfter]

theorem fva_of_not_mem {flag : String} {l : List String} (h : flag ∉ l) :
    flagValuesAfter flag l = [] := by
  induction l with
  | nil => rfl
  | cons a l ih =>
    rw [List.mem_cons, not_or] at h
    rw [fva_cons_ne (fun he => h.1 he.symm)]
    exact ih h.2

theorem fva_append_of_not_mem {flag : String} {l m : List String} (h : flag ∉ l) :
    flagValuesAfter flag (l ++ m) = flagValuesAfter flag m := by
  induction l with
  | nil => rfl
  | cons a l ih =>
    rw [List.mem_cons, not_or] at h
    rw [List.cons_append, fva_cons_ne (fun he => h.1 he.symm)]
    exact ih h.2

theorem fva_typeArgs (ts m : List String) (hm : "--type" ∉ m)
    (h : ∀ t ∈ ts, t ≠ "--type") :
    flagValuesAfter "--type" (typeArgs ts ++ m) = ts := by
  induction ts with
  | nil => simpa [typeArgs] using fva_of_not_mem hm
  | cons t ts ih =>
    have ht : t ≠ "--type" := h t (List.mem_cons_self t ts)
    have hrec := ih fun t2 ht2 => h t2 (List.mem_cons_of_mem t ht2)
    show flagValuesAfter "--type" ((["--type", t] ++ typeArgs ts) ++ m) = t :: ts
    rw [List.append_assoc]
    show flagValuesAfter "--type" ("--type" :: t :: (typeArgs ts ++ m)) = t :: ts
    rw [fva_cons_self, fva_cons_ne ht, hrec]

theorem count_typeArgs (ts : List String) (h : ∀ t ∈ ts, t ≠ "--type") :
    (typeArgs ts).count "--type" = ts.length := by
  induction ts with
  | nil => rfl
  | cons t ts ih =>
    have ht : t ≠ "--type" := h t (List.mem_cons_self t ts)
    have hrec := ih fun t2 ht2 => h t2 (List.mem_cons_of_mem t ht2)
    show (["--type", t] ++ typeArgs ts).count "--type" = ts.length + 1
    rw [List.count_append, hrec]
    simp [List.count_cons, ht]
    omega

/-- C6: for every clean build specification with `n` output formats the
generated builder command contains exactly `n` occurrences of `--type`,
and the values immediately following those occurrences are exactly the
format list, in input order with duplicates preserved. -/
theorem buildCmd_type_pairs (b : BootcBuildInfo) (hc : cleanBuild b = true) :
    (buildCmd b).count "--type" = b.type.length ∧
      flagValuesAfter "--type" (buildCmd b) = b.type := by
  obtain ⟨n1, nt, n3, n4, n5, n6, n7⟩ := cleanBuild_facts hc (f := "--type") (by decide)
  have hnt : ∀ t ∈ b.type, t ≠ "--type" := fun t ht he => nt t ht he.symm
  have hb : "--type" ∉ baseCmd b :=
    not_mem_baseCmd n1 (by decide) (by decide) (by decide) (by decide) (by decide)
  have ha : "--type" ∉ archArgs b := not_mem_archArgs (by decide) n3
  have hr : "--type" ∉ rootfsArgs b := not_mem_rootfsArgs (by decide) (by decide)
  have hw : "--type" ∉ awsArgs b := not_mem_awsArgs (by decide) (by decide) (by decide) n5 n6 n7
  have hch : "--type" ∉ chownArgs b := not_mem_chownArgs (by decide) n4
  constructor
  · rw [buildCmd]
    simp only [List.count_append]
    rw [List.count_eq_zero.2 hb, List.count_eq_zero.2 ha, List.count_eq_zero.2 hr,
      List.count_eq_zero.2 hw, List.count_eq_zero.2 hch, count_typeArgs b.type hnt]
    omega
  · rw [buildCmd, List.append_assoc, List.append_assoc, List.append_assoc, List.append_assoc,
      fva_append_of_not_mem hb]
    refine fva_typeArgs b.type _ ?_ hnt
    simp only [List.mem_append, not_or]
    exact ⟨ha, hr, hw, hch⟩

/-- C6 witness: the theorem instantiated at the single-format test
specification. -/
theorem buildCmd_type_pairs_witness :
    (buildCmd singleRawArchBuild).count "--type" = singleRawArchBuild.type.length ∧
      flagValuesAfter "--type" (buildCmd singleRawArchBuild) = singleRawArchBuild.type :=
  buildCmd_type_pairs singleRawArchBuild (by decide)

theorem fva_awsArgs_bucket {b : BootcBuildInfo} {m : List String} (hall : allAws b = true)
    (hm : "--aws-bucket" ∉ m) (v1 : "--aws-bucket" ≠ b.awsBucket.getD "")
    (v2 : "--aws-bucket" ≠ b.awsRegion.getD "") (v3 : "--aws-bucket" ≠ b.awsAmiName.getD "") :
    flagValuesAfter "--aws-bucket" (awsArgs b ++ m) = [b.awsBucket.getD ""] := by
  rw [awsArgs, if_pos hall]
  show flagValuesAfter "--aws-bucket" ("--aws-bucket" :: b.awsBucket.getD "" ::
    "--aws-region" :: b.awsRegion.getD "" :: "--aws-ami-name" :: b.awsAmiName.getD "" :: m)
      = [b.awsBucket.getD ""]
  rw [fva_cons_self, fva_cons_ne v1.symm, fva_cons_ne (by decide), fva_cons_ne v2.symm,
    fva_cons_ne (by decide), fva_cons_ne v3.symm, fva_of_not_mem hm]

theorem fva_awsArgs_region {b : BootcBuildInfo} {m : List String} (hall : allAws b = true)
    (hm : "--aws-region" ∉ m) (v1 : "--aws-region" ≠ b.awsBucket.getD "")
    (v2 : "--aws-region" ≠ b.awsRegion.getD "") (v3 : "--aws-region" ≠ b.awsAmiName.getD "") :
    flagValuesAfter "--aws-region" (awsArgs b ++ m) = [b.awsRegion.getD ""] := by
  rw [awsArgs, if_pos hall]
  show flagValuesAfter "--aws-region" ("--aws-bucket" :: b.awsBucket.getD "" ::
    "--aws-region" :: b.awsRegion.getD "" :: "--aws-ami-name" :: b.awsAmiName.getD "" :: m)
      = [b.awsRegion.getD ""]
  rw [fva_cons_ne (by decide), fva_cons_ne v1.symm, fva_cons_self, fva_cons_ne v2.symm,
    fva_cons_ne (by decide), fva_cons_ne v3.symm, fva_of_not_mem hm]

theorem fva_awsArgs_amiName {b : BootcBuildInfo} {m : List String} (hall : allAws b = true)
    (hm : "--aws-ami-name" ∉ m) (v1 : "--aws-ami-name" ≠ b.awsBucket.getD "")
    (v2 : "--aws-ami-name" ≠ b.awsRegion.getD "") (v3 : "--aws-ami-name" ≠ b.awsAmiName.getD "") :
    flagValuesAfter "--aws-ami-name" (awsArgs b ++ m) = [b.awsAmiName.getD ""] := by
  rw [awsArgs, if_pos hall]
  show flagValuesAfter "--aws-ami-name" ("--aws-bucket" :: b.awsBucket.getD "" ::
    "--aws-region" :: b.awsRegion.getD "" :: "--aws-ami-name" :: b.awsAmiName.getD "" :: m)
      = [b.awsAmiName.getD ""]
  rw [fva_cons_ne (by decide), fva_cons_ne v1.symm, fva_cons_ne (by decide),
    fva_cons_ne v2.symm, fva_cons_self, fva_cons_ne v3.symm, fva_of_not_mem hm]

/-- C5: the AWS flags are all-or-nothing. For every clean build
specification, each of `--aws-bucket`, `--aws-region`, `--aws-ami-name`
appears in the generated builder command exactly when all three upload
fields are present (truthy), and in that case each flag is immediately
followed by its field value; when any field is missing none of the
three flags appears. -/
theorem buildCmd_aws (b : BootcBuildInfo) (hc : cleanBuild b = true) :
    (("--aws-bucket" ∈ buildCmd b) ↔ allAws b = true) ∧
      (("--aws-region" ∈ buildCmd b) ↔ allAws b = true) ∧
      (("--aws-ami-name" ∈ buildCmd b) ↔ allAws b = true) ∧
      (allAws b = true →
        flagValuesAfter "--aws-bucket" (buildCmd b) = [b.awsBucket.getD ""] ∧
          flagValuesAfter "--aws-region" (buildCmd b) = [b.awsRegion.getD ""] ∧
          flagValuesAfter "--aws-ami-name" (buildCmd b) = [b.awsAmiName.getD ""]) := by
  obtain ⟨b1, bt, b3, b4, b5, b6, b7⟩ := cleanBuild_facts hc (f := "--aws-bucket") (by decide)
  obtain ⟨r1, rt, r3, r4, r5, r6, r7⟩ := cleanBuild_facts hc (f := "--aws-region") (by decide)
  obtain ⟨a1, at2, a3, a4, a5, a6, a7⟩ := cleanBuild_facts hc (f := "--aws-ami-name") (by decide)
  have memOfAll : allAws b = true → ∀ f ∈ ["--aws-bucket", "--aws-region", "--aws-ami-name"],
      f ∈ buildCmd b := by
    intro hall f hfm
    refine mem_buildCmd_parts.2 (Or.inr (Or.inr (Or.inr (Or.inr (Or.inl ?_)))))
    rw [awsArgs, if_pos hall]
    simp only [List.mem_cons, List.not_mem_nil, or_false] at hfm
    rcases hfm with rfl | rfl | rfl <;> simp
  refine ⟨⟨fun hm => ?_, fun hall => memOfAll hall _ (by decide)⟩,
    ⟨fun hm => ?_, fun hall => memOfAll hall _ (by decide)⟩,
    ⟨fun hm => ?_, fun hall => memOfAll hall _ (by decide)⟩,
    fun hall => ⟨?_, ?_, ?_⟩⟩
  · rcases mem_buildCmd_parts.1 hm with h | h | h | h | h | h
    · exact absurd h (not_mem_baseCmd b1 (by decide) (by decide) (by decide) (by decide) (by decide))
    · exact absurd h (not_mem_typeArgs (by decide) bt)
    · exact absurd h (not_mem_archArgs (by decide) b3)
    · exact absurd h (not_mem_rootfsArgs (by decide) (by decide))
    · exact allAws_of_mem_awsArgs h
    · exact absurd h (not_mem_chownArgs (by decide) b4)
  · rcases mem_buildCmd_parts.1 hm with h | h | h | h | h | h
    · exact absurd h (not_mem_baseCmd r1 (by decide) (by decide) (by decide) (by decide) (by decide))
    · exact absurd h (not_mem_typeArgs (by decide) rt)
    · exact absurd h (not_mem_archArgs (by decide) r3)
    · exact absurd h (not_mem_rootfsArgs (by decide) (by decide))
    · exact allAws_of_mem_awsArgs h
    · exact absurd h (not_mem_chownArgs (by decide) r4)
  · rcases mem_buildCmd_parts.1 hm with h | h | h | h | h | h
    · exact absurd h (not_mem_baseCmd a1 (by decide) (by decide) (by decide) (by decide) (by decide))
    · exact absurd h (not_mem_typeArgs (by decide) at2)
    · exact absurd h (not_mem_archArgs (by decide) a3)
    · exact absurd h (not_mem_rootfsArgs (by decide) (by decide))
    · exact allAws_of_mem_awsArgs h
    · exact absurd h (not_mem_chownArgs (by decide) a4)
  · rw [buildCmd, List.append_assoc, List.append_assoc, List.append_assoc, List.append_assoc,
      fva_append_of_not_mem
        (not_mem_baseCmd b1 (by decide) (by decide) (by decide) (by decide) (by decide)),
      fva_append_of_not_mem (not_mem_typeArgs (by decide) bt),
      fva_append_of_not_mem (not_mem_archArgs (by decide) b3),
      fva_append_of_not_mem (not_mem_rootfsArgs (by decide) (by decide))]
    exact fva_awsArgs_bucket hall (not_mem_chownArgs (by decide) b4) b5 b6 b7
  · rw [buildCmd, List.append_assoc, List.append_assoc, List.append_assoc, List.append_assoc,
      fva_append_of_not_mem
        (not_mem_baseCmd r1 (by decide) (by decide) (by decide) (by decide) (by decide)),
      fva_append_of_not_mem (not_mem_typeArgs (by decide) rt),
      fva_append_of_not_mem (not_mem_archArgs (by decide) r3),
      fva_append_of_not_mem (not_mem_rootfsArgs (by decide) (by decide))]
    exact fva_awsArgs_region hall (not_mem_chownArgs (by decide) r4) r5 r6 r7
  · rw [buildCmd, List.append_assoc, List.append_assoc, List.append_assoc, List.append_assoc,
      fva_append_of_not_mem
        (not_mem_baseCmd a1 (by decide) (by decide) (by decide) (by decide) (by decide)),
      fva_append_of_not_mem (not_mem_typeArgs (by decide) at2),
      fva_append_of_not_mem (not_mem_archArgs (by decide) a3),
      fva_append_of_not_mem (not_mem_rootfsArgs (by decide) (by decide))]
    exact fva_awsArgs_amiName hall (not_mem_chownArgs (by decide) a4) a5 a6 a7

/-- The AWS test specification: all three upload fields present. -/
def awsFullBuild : BootcBuildInfo :=
  { singleRawArchBuild with
    awsBucket := some "test-bucket"
    awsRegion := some "us-west-2"
    awsAmiName := some "test-ami" }

/-- C5 witness: the theorem instantiated at the specification of the
repository's AWS test, with all three upload fields present. -/
theorem buildCmd_aws_witness :
    (("--aws-bucket" ∈ buildCmd awsFullBuild) ↔ allAws awsFullBuild = true) ∧
      (("--aws-region" ∈ buildCmd awsFullBuild) ↔ allAws awsFullBuild = true) ∧
      (("--aws-ami-name" ∈ buildCmd awsFullBuild) ↔ allAws awsFullBuild = true) ∧
      (allAws awsFullBuild = true →
        flagValuesAfter "--aws-bucket" (buildCmd awsFullBuild) = [awsFullBuild.awsBucket.getD ""] ∧
          flagValuesAfter "--aws-region" (buildCmd awsFullBuild) = [awsFullBuild.awsRegion.getD ""] ∧
          flagValuesAfter "--aws-ami-name" (buildCmd awsFullBuild)
            = [awsFullBuild.awsAmiName.getD ""]) :=
  buildCmd_aws awsFullBuild (by decide)

/-! ### Model of `getUnusedName` (`build-disk-image.ts`) -/

/-- Remove the first `/` of a character list (the embedding of the
JavaScript `name.replace('/', '')` on each reported container name). -/
def removeFirstSlash : List Char → List Char
  | [] => []
  | c :: cs => if c = '/' then cs else c :: removeFirstSlash cs

/-- Remove the first `/` of a string. -/
def stripSlash (s : String) : String := ⟨removeFirstSlash s.data⟩

/-- The character of a single decimal digit. -/
def digitChar10 (d : Nat) : Char :=
  if d = 0 then '0' else if d = 1 then '1' else if d = 2 then '2' else if d = 3 then '3'
  else if d = 4 then '4' else if d = 5 then '5' else if d = 6 then '6' else if d = 7 then '7'
  else if d = 8 then '8' else '9'

/-- Little-endian decimal digits of `n`, via structural recursion on a
fuel argument (`fuel ≥ n` suffices, see `undigitsLE_digitsLEAux`). -/
def digitsLEAux : Nat → Nat → List Nat
  | 0, _ => []
  | fuel + 1, n => if n = 0 then [] else n % 10 :: digitsLEAux fuel (n / 10)

/-- Little-endian decimal digits of `n` (empty for 0). -/
def digitsLE (n : Nat) : List Nat := digitsLEAux n n

/-- Value of a little-endian digit list; a left inverse of `digitsLE`. -/
def undigitsLE : List Nat → Nat
  | [] => 0
  | d :: ds => d + 10 * undigitsLE ds

/-- Decimal rendering of a natural number (the embedding of the
JavaScript number-to-string conversion in `name + '-' + count`). -/
def natToDec (n : Nat) : String :=
  if n = 0 then "0" else ⟨((digitsLE n).map digitChar10).reverse⟩

/-- The candidate name tried at counter value `k`: `<base>-<k>`. -/
def candidateName (base : String) (k : Nat) : String :=
  base ++ "-" ++ natToDec k

/-- The collision loop of `getUnusedName`: try `<base>-<count>`,
`<base>-<count+1>`, ... until a name not among `names` is found. The
fuel argument makes the recursion structural; `getUnusedName` passes
enough fuel for the loop to always terminate at the first free
candidate. -/
def getUnusedNameGo (names : List String) (base : String) : Nat → Nat → String
  | count, 0 => candidateName base count
  | count, fuel + 1 =>
    if names.contains (candidateName base count) then
      getUnusedNameGo names base (count + 1) fuel
    else candidateName base count

/-- Modelled from the spec: `getUnusedName(basename)` from
`build-disk-image.ts` (file absent from the snapshot; behavior per the
spec and the tests in `build-disk-image.spec.ts`). The reported
container names have their first `/` removed; the basename itself is
used when unused, otherwise `-2`, `-3`, ... is appended until a free
name is found. -/
def getUnusedName (existing : List String) (base : String) : String :=
  if (existing.map stripSlash).contains base then
    getUnusedNameGo (existing.map stripSlash) base 2 ((existing.map stripSlash).length + 1)
  else base

theorem undigitsLE_digitsLEAux : ∀ fuel n, n ≤ fuel → undigitsLE (digitsLEAux fuel n) = n := by
  intro fuel
  induction fuel with
  | zero => intro n hn; interval_cases n; rfl
  | succ fuel ih =>
    intro n hn
    by_cases h0 : n = 0
    · subst h0; rfl
    · have hdiv : n / 10 ≤ fuel := by
        have := Nat.div_lt_self (Nat.pos_of_ne_zero h0) (by omega : 1 < 10)
        omega
      simp only [digitsLEAux, h0, if_false, undigitsLE, ih (n / 10) hdiv]
      omega

theorem undigitsLE_digitsLE (n : Nat) : undigitsLE (digitsLE n) = n :=
  undigitsLE_digitsLEAux n n le_rfl

theorem digitsLEAux_lt : ∀ fuel n d, d ∈ digitsLEAux fuel n → d < 10 := by
  intro fuel
  induction fuel with
  | zero => intro n d hd; cases hd
  | succ fuel ih =>
    intro n d hd
    by_cases h0 : n = 0
    · subst h0; cases hd
    · simp only [digitsLEAux, h0, if_false] at hd
      rcases List.mem_cons.1 hd with h | h
      · subst h; exact Nat.mod_lt n (by omega)
      · exact ih (n / 10) d h

theorem digitChar10_inj_aux : ∀ d < 10, ∀ e < 10, digitChar10 d = digitChar10 e → d = e := by
  decide

theorem digitChar10_inj {d e : Nat} (hd : d < 10) (he : e < 10)
    (h : digitChar10 d = digitChar10 e) : d = e :=
  digitChar10_inj_aux d hd e he h

theorem map_digitChar10_inj : ∀ l1 l2 : List Nat, (∀ x ∈ l1, x < 10) → (∀ x ∈ l2, x < 10) →
    l1.map digitChar10 = l2.map digitChar10 → l1 = l2 := by
  intro l1
  induction l1 with
  | nil =>
    intro l2 _ _ h
    cases l2 with
    | nil => rfl
    | cons b l2 => exact absurd h (by simp)
  | cons a l1 ih =>
    intro l2 h1 h2 h
    cases l2 with
    | nil => cases h
    | cons b l2 =>
      simp only [List.map_cons, List.cons.injEq] at h
      have ha := digitChar10_inj (h1 a (List.mem_cons_self a l1)) (h2 b (List.mem_cons_self b l2)) h.1
      have hl := ih l2 (fun x hx => h1 x (List.mem_cons_of_mem a hx))
        (fun x hx => h2 x (List.mem_cons_of_mem b hx)) h.2
      rw [ha, hl]

theorem natToDec_inj : ∀ m n : Nat, natToDec m = natToDec n → m = n := by
  have key : ∀ n : Nat, n ≠ 0 → natToDec n ≠ "0" := by
    intro n h0 habs
    have hdata : (((digitsLE n).map digitChar10).reverse : List Char) = ['0'] := by
      have := congrArg String.data habs
      simpa [natToDec, h0] using this
    have hlen : (digitsLE n).length = 1 := by
      have := congrArg List.length hdata
      simpa using this
    obtain ⟨d, hd⟩ : ∃ d, digitsLE n = [d] := by
      cases hl : digitsLE n with
      | nil => rw [hl] at hlen; cases hlen
      | cons d ds =>
        cases ds with
        | nil => exact ⟨d, rfl⟩
        | cons e es => rw [hl] at hlen; simp at hlen
    have hchar : digitChar10 d = '0' := by
      rw [hd] at hdata
      simpa using hdata
    have hd10 : d < 10 := digitsLEAux_lt n n d (by rw [← digitsLE, hd]; exact List.mem_singleton.2 rfl)
    have : d = 0 := digitChar10_inj hd10 (by omega) (by simpa [digitChar10] using hchar)
    have hn := undigitsLE_digitsLE n
    rw [hd, this] at hn
    simp [undigitsLE] at hn
    exact h0 hn.symm
  intro m n h
  by_cases hm : m = 0 <;> by_cases hn : n = 0
  · rw [hm, hn]
  · exact absurd ((by simpa [natToDec, hm] using h.symm) : natToDec n = "0") (key n hn)
  · exact absurd ((by simpa [natToDec, hn] using h) : natToDec m = "0") (key m hm)
  · have hdata : (((digitsLE m).map digitChar10).reverse : List Char)
        = ((digitsLE n).map digitChar10).reverse := by
      have := congrArg String.data h
      simpa [natToDec, hm, hn] using this
    have hmap := List.reverse_injective hdata
    have hdig := map_digitChar10_inj (digitsLE m) (digitsLE n)
      (fun x hx => digitsLEAux_lt m m x hx) (fun x hx => digitsLEAux_lt n n x hx) hmap
    have := congrArg undigitsLE hdig
    rwa [undigitsLE_digitsLE, undigitsLE_digitsLE] at this

theorem candidateName_inj {base : String} {j k : Nat}
    (h : candidateName base j = candidateName base k) : j = k := by
  have hdata := congrArg String.data h
  simp only [candidateName, String.data_append] at hdata
  have h2 := List.append_cancel_left hdata
  exact natToDec_inj j k (String.ext h2)

theorem getUnusedNameGo_eq {names : List String} {base : String} (k : Nat) :
    ∀ fuel count, count ≤ k → k - count < fuel →
      names.contains (candidateName base k) = false →
      (∀ j, count ≤ j → j < k → names.contains (candidateName base j) = true) →
      getUnusedNameGo names base count fuel = candidateName base k := by
  intro fuel
  induction fuel with
  | zero => intro count h1 h2 _ _; omega
  | succ fuel ih =>
    intro count h1 h2 hk hj
    by_cases hec : count = k
    · subst hec
      simp only [getUnusedNameGo, hk, Bool.false_eq_true, if_false]
    · have hck : count < k := lt_of_le_of_ne h1 hec
      have hcur : names.contains (candidateName base count) = true := hj count le_rfl hck
      simp only [getUnusedNameGo, hcur, if_true]
      exact ih (count + 1) (by omega) (by omega) hk fun j hj1 hj2 => hj j (by omega) hj2

theorem exists_unused_candidate (names : List String) (base : String) :
    ∃ i, i ≤ names.length ∧ names.contains (candidateName base (2 + i)) = false := by
  by_contra hall
  push_neg at hall
  have hall2 : ∀ i, i ≤ names.length → candidateName base (2 + i) ∈ names := by
    intro i hi
    have := hall i hi
    have hb : names.contains (candidateName base (2 + i)) = true := by
      revert this
      cases names.contains (candidateName base (2 + i)) <;> simp
    simpa using hb
  have ginj : Function.Injective (fun i : Fin (names.length + 1) =>
      candidateName base (2 + i.val)) := by
    intro i j hij
    have := candidateName_inj hij
    exact Fin.ext (by omega)
  have hsub : Finset.univ.image (fun i : Fin (names.length + 1) =>
      candidateName base (2 + i.val)) ⊆ names.toFinset := by
    intro s hs
    obtain ⟨i, _, hi⟩ := Finset.mem_image.1 hs
    rw [← hi]
    exact List.mem_toFinset.2 (hall2 i.val (by omega))
  have hcard : (Finset.univ.image (fun i : Fin (names.length + 1) =>
      candidateName base (2 + i.val))).card = names.length + 1 := by
    rw [Finset.card_image_of_injective Finset.univ ginj, Finset.card_univ, Fintype.card_fin]
  have hle := Finset.card_le_card hsub
  have hle2 := List.toFinset_card_le names
  omega

/-- C8: `getUnusedName` returns the basename itself when it is not
among the (slash-normalized) existing container names, and otherwise
returns `<basename>-<k>` for the lowest `k ≥ 2` such that the suffixed
name is unused: the returned candidate is free and every candidate with
a smaller suffix at least 2 is taken. -/
theorem getUnusedName_spec (existing : List String) (base : String) :
    ((existing.map stripSlash).contains base = false → getUnusedName existing base = base) ∧
      ((existing.map stripSlash).contains base = true →
        ∃ k, 2 ≤ k ∧ getUnusedName existing base = candidateName base k ∧
          (existing.map stripSlash).contains (candidateName base k) = false ∧
          ∀ j, 2 ≤ j → j < k →
            (existing.map stripSlash).contains (candidateName base j) = true) := by
  constructor
  · intro h
    rw [getUnusedName, if_neg (by simpa using h)]
  · intro h
    obtain ⟨i0, hi0le, hi0⟩ := exists_unused_candidate (existing.map stripSlash) base
    have hex : ∃ i, (existing.map stripSlash).contains (candidateName base (2 + i)) = false :=
      ⟨i0, hi0⟩
    refine ⟨2 + Nat.find hex, by omega, ?_, Nat.find_spec hex, ?_⟩
    · rw [getUnusedName, if_pos h]
      refine getUnusedNameGo_eq (2 + Nat.find hex) ((existing.map stripSlash).length + 1) 2
        (by omega) ?_ (Nat.find_spec hex) ?_
      · have := Nat.find_min' hex hi0
        omega
      · intro j hj1 hj2
        have hlt : j - 2 < Nat.find hex := by omega
        have := Nat.find_min hex hlt
        have hj' : j = 2 + (j - 2) := by omega
        rw [hj']
        revert this
        cases (existing.map stripSlash).contains (candidateName base (2 + (j - 2))) <;> simp
    · intro j hj1 hj2
      have hlt : j - 2 < Nat.find hex := by omega
      have := Nat.find_min hex hlt
      have hj' : j = 2 + (j - 2) := by omega
      rw [hj']
      revert this
      cases (existing.map stripSlash).contains (candidateName base (2 + (j - 2))) <;> simp

/-- C8 witness: with existing names `test` and `test-2`, the theorem
produces the least free suffix. -/
theorem getUnusedName_spec_witness :
    ∃ k, 2 ≤ k ∧ getUnusedName ["test", "test-2"] "test" = candidateName "test" k ∧
      ((["test", "test-2"] : List String).map stripSlash).contains
        (candidateName "test" k) = false ∧
      ∀ j, 2 ≤ j → j < k →
        ((["test", "test-2"] : List String).map stripSlash).contains
          (candidateName "test" j) = true :=
  (getUnusedName_spec ["test", "test-2"] "test").2 (by decide)

/-- C10: a container name reported by the runtime with a leading slash
occupies the un-slashed name: with existing names `test` and `/test-2`,
`getUnusedName "test"` returns `test-3`, not `test-2`. -/
theorem getUnusedName_slash :
    getUnusedName ["test", "/test-2"] "test" = "test-3" := by
  decide

/-! ### Model of `createBuildConfigJSON` (`build-disk-image.ts`) -/

/-- A JSON value, as much of it as the generated build configuration
document needs. -/
inductive Json where
  | str : String → Json
  | arr : List Json → Json
  | obj : List (String × Json) → Json

/-- Hexadecimal digit character (lowercase, as produced by
`JSON.stringify` unicode escapes). -/
def hexDigit (n : Nat) : Char :=
  if n = 0 then '0' else if n = 1 then '1' else if n = 2 then '2' else if n = 3 then '3'
  else if n = 4 then '4' else if n = 5 then '5' else if n = 6 then '6' else if n = 7 then '7'
  else if n = 8 then '8' else if n = 9 then '9' else if n = 10 then 'a' else if n = 11 then 'b'
  else if n = 12 then 'c' else if n = 13 then 'd' else if n = 14 then 'e' else 'f'

/-- JSON string escaping of one character, as `JSON.stringify` does it:
quote, backslash and the named control characters get a two-character
escape, other control characters a `\u00XX` escape, everything else is
kept verbatim. -/
def jsonEscapeChar (c : Char) : List Char :=
  if c = '"' then ['\\', '"']
  else if c = '\\' then ['\\', '\\']
  else if c = '\n' then ['\\', 'n']
  else if c = '\t' then ['\\', 't']
  else if c = '\r' then ['\\', 'r']
  else if c = '\x08' then ['\\', 'b']
  else if c = '\x0c' then ['\\', 'f']
  else if c.toNat < 32 then ['\\', 'u', '0', '0', hexDigit (c.toNat / 16), hexDigit (c.toNat % 16)]
  else [c]

/-- JSON escaping of a whole string: the embedding of
`JSON.stringify(s).slice(1, -1)` used for the kickstart contents. -/
def jsonEscape (s : String) : String := ⟨(s.data.map jsonEscapeChar).flatten⟩

/-- JSON object for one user account entry. -/
def jsonOfUser (u : UserConfig) : Json :=
  .obj [("name", .str u.name), ("password", .str u.password), ("key", .str u.key),
    ("groups", .arr (u.groups.map Json.str))]

/-- JSON object for one custom mount point entry. -/
def jsonOfFilesystem (f : FilesystemConfig) : Json :=
  .obj [("mountpoint", .str f.mountpoint), ("minsize", .str f.minsize)]

/-- The fields of the `installer` subobject: the module enable/disable
lists when present, and the kickstart contents (the kickstart file's
raw text, JSON-escaped) when a kickstart path is set. -/
def installerFields (readFile : String → String) (bc : BuildConfig) :
    List (String × Json) :=
  (match bc.anacondaIsoInstallerModules with
    | some m =>
      [("modules", Json.obj [("enable", .arr (m.enable.map Json.str)),
        ("disable", .arr (m.disable.map Json.str))])]
    | none => [])
    ++ (match bc.anacondaIsoInstallerKickstartFilePath with
    | some p => [("kickstart", Json.obj [("contents", .str (jsonEscape (readFile p)))])]
    | none => [])

/-- The fields of the `customizations` object; empty substructures are
omitted. -/
def customizationsFields (readFile : String → String) (bc : BuildConfig) :
    List (String × Json) :=
  (if bc.user.isEmpty then [] else [("user", Json.arr (bc.user.map jsonOfUser))])
    ++ (if bc.filesystem.isEmpty then []
      else [("filesystem", Json.arr (bc.filesystem.map jsonOfFilesystem))])
    ++ (match bc.kernel with
      | some k => [("kernel", Json.obj [("append", .str k.append)])]
      | none => [])
    ++ (if (installerFields readFile bc).isEmpty then []
      else [("installer", Json.obj (installerFields readFile bc))])

/-- Modelled from the spec: `createBuildConfigJSON` from
`build-disk-image.ts` (file absent from the snapshot; behavior per spec
§3/§6 and the tests in `build-disk-image.spec.ts`): the emitted
document always has `customizations` as its single top-level key, with
the populated substructures nested beneath it. `readFile` is the file
system oracle for the kickstart path. -/
def createBuildConfigJSON (readFile : String → String) (bc : BuildConfig) : Json :=
  .obj [("customizations", .obj (customizationsFields readFile bc))]

/-- The top-level keys of a JSON document. -/
def topLevelKeys : Json → List String
  | .obj fields => fields.map Prod.fst
  | _ => []

/-- First value bound to `key` in an association list of JSON fields. -/
def lookupKey (key : String) : List (String × Json) → Option Json
  | [] => none
  | kv :: rest => if kv.1 = key then some kv.2 else lookupKey key rest

/-- Field access on a JSON document (objects only). -/
def getField (key : String) (j : Json) : Option Json :=
  match j with
  | .obj fields => lookupKey key fields
  | _ => none

/-- Path access on a JSON document. -/
def getPath : Json → List String → Option Json
  | j, [] => some j
  | j, k :: ks =>
    match getField k j with
    | some j2 => getPath j2 ks
    | none => none

theorem lookupKey_append_of_not_mem {key : String} {l m : List (String × Json)}
    (h : ∀ kv ∈ l, kv.1 ≠ key) : lookupKey key (l ++ m) = lookupKey key m := by
  induction l with
  | nil => rfl
  | cons kv l ih =>
    rw [List.cons_append, lookupKey, if_neg (h kv (List.mem_cons_self kv l))]
    exact ih fun kv2 h2 => h kv2 (List.mem_cons_of_mem kv h2)

/-- C9: for every structured build configuration the document produced
by `createBuildConfigJSON` has `customizations` as its only top-level
key (even when substructures are empty or omitted), and when a
kickstart file path is set the field
`customizations.installer.kickstart.contents` is the kickstart file's
raw text embedded as a JSON-escaped string. -/
theorem createBuildConfigJSON_spec :
    (∀ (readFile : String → String) (bc : BuildConfig),
      topLevelKeys (createBuildConfigJSON readFile bc) = ["customizations"]) ∧
      (∀ (readFile : String → String) (bc : BuildConfig) (p : String),
        bc.anacondaIsoInstallerKickstartFilePath = some p →
        getPath (createBuildConfigJSON readFile bc)
            ["customizations", "installer", "kickstart", "contents"]
          = some (.str (jsonEscape (readFile p)))) := by
  constructor
  · intro readFile bc
    rfl
  · intro readFile bc p hp
    have hinst : installerFields readFile bc
        = (match bc.anacondaIsoInstallerModules with
          | some m =>
            [("modules", Json.obj [("enable", .arr (m.enable.map Json.str)),
              ("disable", .arr (m.disable.map Json.str))])]
          | none => [])
          ++ [("kickstart", Json.obj [("contents", .str (jsonEscape (readFile p)))])] := by
      rw [installerFields, hp]
    show (match getField "customizations"
        (createBuildConfigJSON readFile bc) with
      | some j2 => getPath j2 ["installer", "kickstart", "contents"]
      | none => none) = some (.str (jsonEscape (readFile p)))
    have hcust : getField "customizations" (createBuildConfigJSON readFile bc)
        = some (.obj (customizationsFields readFile bc)) := rfl
    rw [hcust]
    show (match getField "installer" (.obj (customizationsFields readFile bc)) with
      | some j2 => getPath j2 ["kickstart", "contents"]
      | none => none) = some (.str (jsonEscape (readFile p)))
    have hne : (installerFields readFile bc).isEmpty = false := by
      rw [hinst]
      cases bc.anacondaIsoInstallerModules <;> simp
    have hlook : getField "installer" (.obj (customizationsFields readFile bc))
        = some (.obj (installerFields readFile bc)) := by
      show lookupKey "installer" (customizationsFields readFile bc)
        = some (.obj (installerFields readFile bc))
      rw [customizationsFields]
      rw [List.append_assoc, List.append_assoc]
      rw [lookupKey_append_of_not_mem (by
        intro kv hkv
        rcases List.mem_ite_nil_left.1 hkv with ⟨_, h2⟩
        rw [List.mem_singleton.1 h2]
        simp)]
      rw [lookupKey_append_of_not_mem (by
        intro kv hkv
        rcases List.mem_ite_nil_left.1 hkv with ⟨_, h2⟩
        rw [List.mem_singleton.1 h2]
        simp)]
      rw [lookupKey_append_of_not_mem (by
        intro kv hkv
        cases hker : bc.kernel with
        | none => rw [hker] at hkv; cases hkv
        | some k =>
          rw [hker] at hkv
          rw [List.mem_singleton.1 hkv]
          simp)]
      rw [hne]
      simp [lookupKey]
    rw [hlook]
    rw [hinst]
    show (match lookupKey "kickstart" ((match bc.anacondaIsoInstallerModules with
        | some m =>
          [("modules", Json.obj [("enable", .arr (m.enable.map Json.str)),
            ("disable", .arr (m.disable.map Json.str))])]
        | none => [])
        ++ [("kickstart", Json.obj [("contents", .str (jsonEscape (readFile p)))])]) with
      | some j2 => getPath j2 ["contents"]
      | none => none) = some (.str (jsonEscape (readFile p)))
    rw [lookupKey_append_of_not_mem (by
      intro kv hkv
      cases hm : bc.anacondaIsoInstallerModules with
      | none => rw [hm] at hkv; cases hkv
      | some m =>
        rw [hm] at hkv
        rw [List.mem_singleton.1 hkv]
        simp)]
    rfl

/-- C9 witness: a configuration with only the kickstart path set and a
file oracle returning a two-line script. -/
theorem createBuildConfigJSON_spec_witness :
    getPath (createBuildConfigJSON (fun _ => "line1\nline2")
        ⟨[], [], none, none, some "/foo/kickstart.ks"⟩)
        ["customizations", "installer", "kickstart", "contents"]
      = some (.str (jsonEscape "line1\nline2")) :=
  createBuildConfigJSON_spec.2 (fun _ => "line1\nline2")
    ⟨[], [], none, none, some "/foo/kickstart.ks"⟩ "/foo/kickstart.ks" rfl
